import Mathlib

/-
Verification development for gunpowder's request-negotiation layer.

Embedded source files:
  * src/gunpowder/batch_request.py   (BatchRequest: add, __center_rois, copy, merge)
  * src/gunpowder/nodes/balance_labels.py (BalanceLabels: prepare, process)

The Roi / Coordinate algebra and the ProviderSpec pieces (ArraySpec,
GraphSpec, get_total_roi, the key → spec mapping) are not part of the
excerpt; they are modelled from the spec (sections 3 and 4.1) and marked
as such in their doc comments.

Conventions of the embedding:
  * Coordinates are n-dimensional integer vectors `Fin n → Int`.  Python 2
    integer division (floor division) on a coordinate divided by the
    positive constant 2 coincides with Lean's `Int` division `/`
    (`Int.ediv` rounds toward -infinity for a positive divisor), so
    `get_center` below is exact floor-division semantics.
  * Python dicts keyed by ArrayKey / GraphKey become association lists
    `List (Nat × spec)` with first-occurrence lookup; dict assignment
    replaces the first binding in place or appends a new one, which
    preserves dict insertion order.
  * `BatchRequest` keeps the two dicts `array_specs` and `graph_specs`
    of ProviderSpec; a key's family is fixed, so the `isinstance(spec,
    ArraySpec)` test inside `merge` is true exactly on the array dict.
-/

namespace Gunpowder

/-! ### Coordinates and ROIs -/

/-- Modelled from the spec (§3): an n-dimensional integer coordinate. -/
abbrev Coordinate (n : Nat) := Fin n → Int

/-- Modelled from the spec (§3): a Roi is `(offset, shape)`, both
n-dimensional integer tuples; `roi.py` is not part of the excerpt. -/
structure Roi (n : Nat) where
  offset : Coordinate n
  shape : Coordinate n
deriving DecidableEq

/-- Modelled from the spec (§3): `shift(delta)` returns a new Roi with
`offset += delta`. -/
def Roi.shift {n : Nat} (r : Roi n) (d : Coordinate n) : Roi n :=
  ⟨fun i => r.offset i + d i, r.shape⟩

/-- Modelled from the spec (§3): `center = offset + shape/2` elementwise;
`/` on `Int` is floor division for the positive divisor 2, matching
Python 2 integer division. -/
def Roi.get_center {n : Nat} (r : Roi n) : Coordinate n :=
  fun i => r.offset i + r.shape i / 2

/-- Modelled from the spec (§4.1): `union` is the smallest ROI containing
both (componentwise min of offsets, max of far corners, upper bound
exclusive). -/
def Roi.union {n : Nat} (a b : Roi n) : Roi n :=
  ⟨fun i => min (a.offset i) (b.offset i),
   fun i => max (a.offset i + a.shape i) (b.offset i + b.shape i)
            - min (a.offset i) (b.offset i)⟩

/-- Modelled from the spec (§4.1): union lifted to possibly undefined
ROIs, with `None` as identity (`union(None, X) = X`). -/
def unionO {n : Nat} : Option (Roi n) → Option (Roi n) → Option (Roi n)
  | none, b => b
  | some a, none => some a
  | some a, some b => some (a.union b)

/-! ### Stream specs -/

/-- Modelled from the spec (§3): an ArraySpec carries `roi`, `voxel_size`,
`dtype` and the `nonspatial` flag (default false); `array_spec.py` is not
part of the excerpt.  `dtype` is an opaque tag. -/
structure ArraySpec (n : Nat) where
  roi : Option (Roi n) := none
  voxel_size : Option (Coordinate n) := none
  dtype : Option Nat := none
  nonspatial : Bool := false
deriving DecidableEq

/-- Modelled from the spec (§3): a GraphSpec carries a `roi`;
`graph_spec.py` is not part of the excerpt. -/
structure GraphSpec (n : Nat) where
  roi : Option (Roi n) := none
deriving DecidableEq

/-! ### Association-list dictionaries -/

/-- Python dict assignment `d[k] = v`: replace the first binding of `k`
in place, or append a new binding at the end. -/
def setItem {β : Type} (k : Nat) (v : β) : List (Nat × β) → List (Nat × β)
  | [] => [(k, v)]
  | p :: rest => if p.1 = k then (k, v) :: rest else p :: setItem k v rest

/-! ### BatchRequest (src/gunpowder/batch_request.py) -/

/-- The key → spec mapping of ProviderSpec, restricted to what
`batch_request.py` uses: the two dicts `array_specs` and `graph_specs`
(the mapping itself is modelled from the spec §3, `provider_spec.py` not
being part of the excerpt). -/
structure BatchRequest (n : Nat) where
  array_specs : List (Nat × ArraySpec n) := []
  graph_specs : List (Nat × GraphSpec n) := []
deriving DecidableEq

/-- Modelled from the spec (§3): the ROIs that enter `total_roi` — the
defined ROIs of all spatial (non-nonspatial) entries, arrays then
graphs. -/
def BatchRequest.spatialRois {n : Nat} (r : BatchRequest n) : List (Roi n) :=
  (r.array_specs.filterMap fun p => if p.2.nonspatial then none else p.2.roi)
    ++ (r.graph_specs.filterMap fun p => p.2.roi)

/-- Modelled from the spec (§3): `total_roi` = union of the ROIs of all
spatial entries with a defined ROI, `None` if no such entry exists
(`provider_spec.py` is not part of the excerpt). -/
def BatchRequest.get_total_roi {n : Nat} (r : BatchRequest n) : Option (Roi n) :=
  match r.spatialRois with
  | [] => none
  | x :: xs => some (xs.foldl Roi.union x)

/-- The per-ROI action of `__center_rois`:
`roi.shift(center - roi.get_center())`. -/
def centerSpec {n : Nat} (c : Coordinate n) (ρ : Roi n) : Roi n :=
  ρ.shift (fun i => c i - ρ.get_center i)

/-- `BatchRequest.__center_rois` (src/gunpowder/batch_request.py lines
59-71): compute the total ROI; if undefined return unchanged, else shift
every spec's ROI (arrays and graphs alike, with no nonspatial check) so
its center coincides with the total ROI's center. -/
def BatchRequest.center_rois {n : Nat} (r : BatchRequest n) : BatchRequest n :=
  match r.get_total_roi with
  | none => r
  | some t =>
    let c := t.get_center
    { array_specs := r.array_specs.map fun p =>
        (p.1, { p.2 with roi := p.2.roi.map (centerSpec c) }),
      graph_specs := r.graph_specs.map fun p =>
        (p.1, { p.2 with roi := p.2.roi.map (centerSpec c) }) }

/-- One `add` call's arguments: the key (tagged with its family, since an
ArrayKey builds an ArraySpec and a GraphKey a GraphSpec), the requested
shape and an optional voxel size. -/
inductive AddOp (n : Nat) where
  | array (key : Nat) (shape : Coordinate n) (voxel_size : Option (Coordinate n))
  | graph (key : Nat) (shape : Coordinate n)
deriving DecidableEq

/-- The shape argument of an `add` call. -/
def AddOp.shape {n : Nat} : AddOp n → Coordinate n
  | .array _ s _ => s
  | .graph _ s => s

/-- `BatchRequest.add` (src/gunpowder/batch_request.py lines 16-53):
build the fresh spec with a zero-offset ROI of the given shape (and the
voxel size if given), store it under the key, then re-center all ROIs. -/
def BatchRequest.add {n : Nat} (r : BatchRequest n) (op : AddOp n) : BatchRequest n :=
  let r' : BatchRequest n :=
    match op with
    | .array k s v =>
      { r with array_specs :=
          setItem k { roi := some ⟨fun _ => 0, s⟩, voxel_size := v } r.array_specs }
    | .graph k s =>
      { r with graph_specs :=
          setItem k { roi := some ⟨fun _ => 0, s⟩ } r.graph_specs }
  r'.center_rois

/-- A request built from the empty request by repeated `add` calls. -/
def applyAdds {n : Nat} (ops : List (AddOp n)) : BatchRequest n :=
  ops.foldl BatchRequest.add {}

/-- The shape common to both dicts of one step of `BatchRequest.merge`'s
loop (src/gunpowder/batch_request.py lines 80-89): if the key is absent,
store the incoming spec; otherwise store `f existing incoming` over the
existing binding. -/
def mergeVal {β : Type} (f : β → β → β) (l : List (Nat × β)) (e : Nat × β) :
    List (Nat × β) :=
  match List.lookup e.1 l with
  | none => l ++ [e]
  | some ex => setItem e.1 (f ex e.2) l

/-- One step of `BatchRequest.merge`'s loop for an array entry of the
incoming request: if the existing entry is nonspatial, overwrite it with
the incoming spec (the incoming spec for an array key is an ArraySpec,
so the `isinstance` test holds); else union the ROIs in place, leaving
the other fields of the existing entry untouched. -/
def mergeEntryA {n : Nat} : List (Nat × ArraySpec n) → Nat × ArraySpec n →
    List (Nat × ArraySpec n) :=
  mergeVal fun ex inc =>
    if ex.nonspatial then inc else { ex with roi := unionO ex.roi inc.roi }

/-- One step of `BatchRequest.merge`'s loop for a graph entry of the
incoming request: a GraphSpec never passes the `isinstance(spec,
ArraySpec)` test, so a present key always takes the ROI-union branch. -/
def mergeEntryG {n : Nat} : List (Nat × GraphSpec n) → Nat × GraphSpec n →
    List (Nat × GraphSpec n) :=
  mergeVal fun ex inc => { ex with roi := unionO ex.roi inc.roi }

/-- `BatchRequest.merge` (src/gunpowder/batch_request.py lines 73-89) as
a value-level function: start from (a copy of) `self` and fold the
incoming request's entries over it; a key's family is fixed, so the two
dicts merge independently. -/
def BatchRequest.merge {n : Nat} (r other : BatchRequest n) : BatchRequest n :=
  { array_specs := other.array_specs.foldl mergeEntryA r.array_specs,
    graph_specs := other.graph_specs.foldl mergeEntryG r.graph_specs }

/-! ### Heap model of `copy` and `merge` (aliasing behaviour)

`BatchRequest.merge` above is the value-level meaning of the source.  To
settle the aliasing claims, the same source lines are embedded a second
time against an explicit store: spec objects live in per-family heaps
(addresses are list indices), a request maps keys to addresses,
`copy.deepcopy` allocates fresh cells, and `merged[key] = spec` stores
`spec`'s *address* (the source makes no copy there), while
`merged[key].roi = ...` writes through the existing address. -/

/-- Read a heap cell; a dangling address reads the given default. -/
def hread {β : Type} (cells : List β) (dflt : β) (a : Nat) : β :=
  (cells.get? a).getD dflt

/-- Write a heap cell in place (no-op on a dangling address, which the
embedded code never produces). -/
def hwrite {β : Type} (cells : List β) (a : Nat) (v : β) : List β :=
  cells.set a v

/-- `copy.deepcopy` of one spec dict (src/gunpowder/batch_request.py
lines 55-57): allocate a fresh cell holding the value of every entry's
spec and map the keys to the fresh addresses. -/
def copyCells {β : Type} (dflt : β) :
    List (Nat × Nat) → List β → List (Nat × Nat) × List β
  | [], cells => ([], cells)
  | p :: rest, cells =>
    let a := cells.length
    let r := copyCells dflt rest (cells ++ [hread cells dflt p.2])
    ((p.1, a) :: r.1, r.2)

/-- One step of `merge`'s loop over one incoming entry `(key, addr)`,
against the store.  `combine ex inc = none` means the branch that stores
the incoming spec itself (`merged[key] = spec`, aliasing the incoming
request's object); `combine ex inc = some v` means the in-place ROI
update written through the existing entry's address. -/
def mergeCellStep {β : Type} (dflt : β) (combine : β → β → Option β)
    (st : List (Nat × Nat) × List β) (e : Nat × Nat) :
    List (Nat × Nat) × List β :=
  match List.lookup e.1 st.1 with
  | none => (st.1 ++ [e], st.2)
  | some exAddr =>
    let ex := hread st.2 dflt exAddr
    let inc := hread st.2 dflt e.2
    match combine ex inc with
    | none => (setItem e.1 e.2 st.1, st.2)
    | some v => (st.1, hwrite st.2 exAddr v)

/-- The array-dict combine of `merge`: a nonspatial existing entry is
overwritten by (the address of) the incoming spec; otherwise the
existing cell's ROI is unioned in place. -/
def combineA {n : Nat} (ex inc : ArraySpec n) : Option (ArraySpec n) :=
  if ex.nonspatial then none else some { ex with roi := unionO ex.roi inc.roi }

/-- The graph-dict combine of `merge`: always the in-place ROI union. -/
def combineG {n : Nat} (ex inc : GraphSpec n) : Option (GraphSpec n) :=
  some { ex with roi := unionO ex.roi inc.roi }

/-- A request in the heap model: keys map to addresses into the
per-family heaps. -/
structure BatchRequestH where
  array_specs : List (Nat × Nat) := []
  graph_specs : List (Nat × Nat) := []
deriving DecidableEq

/-- The store: one heap of ArraySpec cells and one of GraphSpec cells. -/
structure Heap (n : Nat) where
  acells : List (ArraySpec n) := []
  gcells : List (GraphSpec n) := []
deriving DecidableEq

/-- `BatchRequest.merge` against the store: deep-copy `self`, then fold
the incoming entries with `mergeCellStep`. -/
def BatchRequestH.merge {n : Nat} (r other : BatchRequestH) (h : Heap n) :
    BatchRequestH × Heap n :=
  let ca := copyCells {} r.array_specs h.acells
  let cg := copyCells {} r.graph_specs h.gcells
  let fa := other.array_specs.foldl (mergeCellStep {} combineA) ca
  let fg := other.graph_specs.foldl (mergeCellStep {} combineG) cg
  (⟨fa.1, fg.1⟩, ⟨fa.2, fg.2⟩)

/-- The spec a request sees under a key, given the store: the cell at the
key's address. -/
def BatchRequestH.viewA {n : Nat} (r : BatchRequestH) (h : Heap n) (k : Nat) :
    Option (ArraySpec n) :=
  (List.lookup k r.array_specs).map (hread h.acells {})

/-! ### BalanceLabels (src/gunpowder/nodes/balance_labels.py)

Numpy float arrays are embedded as flat lists of rationals (the claims
settled here use only exact values: sums, products, clips, 1/(2·f)); an
array's shape is its length, which is all the elementwise operations and
the shape assertion observe. -/

/-- The configuration of a BalanceLabels node: the labels key, the
scales key and the (possibly empty) list of mask keys. -/
structure BalanceLabels where
  labels : Nat
  scales : Nat
  masks : List Nat
deriving DecidableEq

/-- `BalanceLabels.prepare` (lines 54-59): set `skip_next = True`; if the
scales key is in the request, delete it and set `skip_next = False`.
Returns the rewritten request and the flag. -/
def BalanceLabels.prepare (b : BalanceLabels) (request : List (Nat × Nat)) :
    List (Nat × Nat) × Bool :=
  if request.any (fun p => p.1 == b.scales) then
    (request.filter (fun p => !(p.1 == b.scales)), false)
  else
    (request, true)

/-- `np.clip(x, lo, hi)` on a scalar. -/
def clipQ (x lo hi : ℚ) : ℚ := min (max x lo) hi

/-- The label binarization `np.floor(np.clip(labels + 0.5, 0, 1))`
applied to one element. -/
def binarize (x : ℚ) : ℚ := (⌊clipQ (x + 1/2) 0 1⌋ : ℤ)

/-- The `error_scale` array before weighting (lines 69-81): start from
ones of the labels' shape and multiply every mask in elementwise. -/
def errorScale (labels : List ℚ) (masks : List (List ℚ)) : List ℚ :=
  masks.foldl (fun acc m => List.zipWith (· * ·) acc m)
    (List.replicate labels.length 1)

/-- `frac_pos` before clipping (lines 84-87): the positive fraction of
the masked-in area, or 0 when the masked-in sum is not positive. -/
def fracPosRaw (labels : List ℚ) (masks : List (List ℚ)) : ℚ :=
  if (errorScale labels masks).sum > 0 then
    (List.zipWith (· * ·) (labels.map binarize) (errorScale labels masks)).sum
      / (errorScale labels masks).sum
  else 0

/-- `frac_pos` after `np.clip(frac_pos, 0.05, 0.95)` (line 88). -/
def fracPos (labels : List ℚ) (masks : List (List ℚ)) : ℚ :=
  clipQ (fracPosRaw labels masks) (1/20) (19/20)

/-- `w_pos = 1.0 / (2.0 * frac_pos)` (line 92). -/
def wPos (labels : List ℚ) (masks : List (List ℚ)) : ℚ :=
  1 / (2 * fracPos labels masks)

/-- `w_neg = 1.0 / (2.0 * frac_neg)` with `frac_neg = 1 - frac_pos`
(lines 89, 93). -/
def wNeg (labels : List ℚ) (masks : List (List ℚ)) : ℚ :=
  1 / (2 * (1 - fracPos labels masks))

/-- The written scales array (line 96):
`error_scale * ((labels_binary >= 0.5) * w_pos + (labels_binary < 0.5) * w_neg)`. -/
def scalesData (labels : List ℚ) (masks : List (List ℚ)) : List ℚ :=
  List.zipWith (· * ·) (errorScale labels masks)
    ((labels.map binarize).map fun lb =>
      (if lb ≥ 1/2 then (1 : ℚ) else 0) * wPos labels masks
        + (if lb < 1/2 then (1 : ℚ) else 0) * wNeg labels masks)

/-- `BalanceLabels.process` (lines 61-100) at the batch level: when
`skip_next` is set, reset it and return the batch unchanged; otherwise
look the labels and mask volumes up in the batch (a missing volume is a
Python KeyError, embedded as `none`), check the shape assertion, and
store the computed scales array under the scales key.  The returned flag
is the node's `skip_next` after the call. -/
def BalanceLabels.process (b : BalanceLabels) (skip_next : Bool)
    (batch : List (Nat × List ℚ)) : Option (List (Nat × List ℚ)) × Bool :=
  if skip_next then
    (some batch, false)
  else
    match List.lookup b.labels batch with
    | none => (none, false)
    | some labels =>
      match b.masks.mapM (fun k => List.lookup k batch) with
      | none => (none, false)
      | some masks =>
        if masks.all (fun m => m.length = labels.length) then
          (some (setItem b.scales (scalesData labels masks) batch), false)
        else
          (none, false)

/-! ### Invariants of add-built requests -/

/-- Well-formedness of the array dict of a request built by `add` calls:
every entry is spatial and carries a defined ROI with componentwise
nonnegative shape. -/
def WFA {n : Nat} (l : List (Nat × ArraySpec n)) : Prop :=
  ∀ p ∈ l, p.2.nonspatial = false ∧
    ∃ ρ, p.2.roi = some ρ ∧ ∀ i, 0 ≤ ρ.shape i

/-- Well-formedness of the graph dict of a request built by `add` calls:
every entry carries a defined ROI with componentwise nonnegative
shape. -/
def WFG {n : Nat} (l : List (Nat × GraphSpec n)) : Prop :=
  ∀ p ∈ l, ∃ ρ, p.2.roi = some ρ ∧ ∀ i, 0 ≤ ρ.shape i

/-- The centering property claimed of add-built requests: every entry of
either dict is spatial, has a defined ROI, and that ROI's center equals
the center of the request's total ROI. -/
def AllCentered {n : Nat} (r : BatchRequest n) : Prop :=
  (∀ p ∈ r.array_specs, p.2.nonspatial = false ∧ p.2.roi.isSome = true ∧
    p.2.roi.map Roi.get_center = r.get_total_roi.map Roi.get_center) ∧
  (∀ p ∈ r.graph_specs, p.2.roi.isSome = true ∧
    p.2.roi.map Roi.get_center = r.get_total_roi.map Roi.get_center)

/-! ### Concrete one-dimensional example data used in closed statements -/

/-- A spatial array spec with ROI `[0, 10)`, voxel size 1, dtype tag 0. -/
def specTen : ArraySpec 1 :=
  { roi := some ⟨fun _ => 0, fun _ => 10⟩,
    voxel_size := some (fun _ => 1),
    dtype := some 0 }

/-- A spatial array spec with ROI `[6, 14)`, voxel size 2, dtype tag 1. -/
def specEight : ArraySpec 1 :=
  { roi := some ⟨fun _ => 6, fun _ => 8⟩,
    voxel_size := some (fun _ => 2),
    dtype := some 1 }

/-- A nonspatial array spec with no ROI and dtype tag 0. -/
def specNS : ArraySpec 1 :=
  { roi := none,
    dtype := some 0,
    nonspatial := true }

/-- A nonspatial array spec carrying the (ignored, per the spec) ROI
`[100, 100)` and dtype tag 0. -/
def specNSRoi : ArraySpec 1 :=
  { roi := some ⟨fun _ => 100, fun _ => 0⟩,
    dtype := some 0,
    nonspatial := true }

/-- A one-entry request holding `specTen` under key 4. -/
def reqTenAt4 : BatchRequest 1 :=
  { array_specs := [(4, specTen)] }

/-- A one-entry request holding `specEight` under key 4. -/
def reqEightAt4 : BatchRequest 1 :=
  { array_specs := [(4, specEight)] }

/-- A one-entry request holding the nonspatial `specNS` under key 4. -/
def reqNSAt4 : BatchRequest 1 :=
  { array_specs := [(4, specNS)] }

/-- A request holding `specTen` under key 0 and the nonspatial
`specNSRoi` under key 1. -/
def reqWithNS : BatchRequest 1 :=
  { array_specs := [(0, specTen), (1, specNSRoi)] }

/-- The original spec object stored in the shared heap for the aliasing
example. -/
def origSpec : ArraySpec 1 :=
  { dtype := some 7 }

/-- A different spec value, written later through the merged request's
entry. -/
def mutSpec : ArraySpec 1 :=
  { dtype := some 9 }

/-- A one-cell store holding `origSpec` at address 0. -/
def aliasHeap : Heap 1 :=
  { acells := [origSpec] }

/-- A request whose key 5 points at the heap cell 0. -/
def aliasReq : BatchRequestH :=
  { array_specs := [(5, 0)] }

/-- The result of merging the empty request with `aliasReq` over
`aliasHeap`: the request part. -/
def aliasMergedReq : BatchRequestH :=
  (BatchRequestH.merge {} aliasReq aliasHeap).1

/-- The result of merging the empty request with `aliasReq` over
`aliasHeap`: the store part. -/
def aliasMergedHeap : Heap 1 :=
  (BatchRequestH.merge {} aliasReq aliasHeap).2

/-- The store after mutating the merged request's key-5 spec in place
(writing `mutSpec` through the address the merged request holds). -/
def aliasMutHeap : Heap 1 :=
  { aliasMergedHeap with acells := hwrite aliasMergedHeap.acells 0 mutSpec }

/-! ### Association-list lemmas -/

theorem lookup_cons_self {β : Type} (k : Nat) (v : β) (l : List (Nat × β)) :
    List.lookup k ((k, v) :: l) = some v := by
  simp [List.lookup]

theorem lookup_cons_ne {β : Type} (k : Nat) (p : Nat × β) (l : List (Nat × β))
    (h : k ≠ p.1) :
    List.lookup k (p :: l) = List.lookup k l := by
  obtain ⟨a, v⟩ := p
  have ha : (k == a) = false := by simpa using h
  simp [List.lookup, ha]

theorem lookup_eq_none_iff {β : Type} (k : Nat) (l : List (Nat × β)) :
    List.lookup k l = none ↔ ∀ p ∈ l, p.1 ≠ k := by
  induction l with
  | nil => simp
  | cons p rest ih =>
    by_cases hp : p.1 = k
    · obtain ⟨a, v⟩ := p
      subst hp
      rw [lookup_cons_self]
      simp
    · rw [lookup_cons_ne k p rest (by omega)]
      simp only [List.mem_cons, ih]
      constructor
      · rintro h q (rfl | hq)
        · exact hp
        · exact h q hq
      · intro h q hq
        exact h q (Or.inr hq)

theorem any_key_eq_iff {β : Type} (k : Nat) (l : List (Nat × β)) :
    l.any (fun p => p.1 == k) = true ↔ ∃ p ∈ l, p.1 = k := by
  simp

theorem lookup_filter_out {β : Type} (k : Nat) (l : List (Nat × β)) :
    List.lookup k (l.filter fun p => !(p.1 == k)) = none := by
  rw [lookup_eq_none_iff]
  intro p hp
  have := List.of_mem_filter hp
  simpa using this

theorem lookup_filter_ne {β : Type} (k s : Nat) (l : List (Nat × β)) (h : k ≠ s) :
    List.lookup k (l.filter fun p => !(p.1 == s)) = List.lookup k l := by
  induction l with
  | nil => simp
  | cons p rest ih =>
    rw [List.filter_cons]
    by_cases hp : p.1 = s
    · have hc : (!(p.1 == s)) = false := by simp [hp]
      rw [hc]
      simp only [Bool.false_eq_true, if_false]
      rw [ih, lookup_cons_ne k p rest (by omega)]
    · have hc : (!(p.1 == s)) = true := by simp [hp]
      rw [hc]
      simp only [if_true]
      by_cases hk : k = p.1
      · obtain ⟨a, v⟩ := p
        simp only at hk
        subst hk
        rw [lookup_cons_self, lookup_cons_self]
      · rw [lookup_cons_ne k p _ hk, lookup_cons_ne k p rest hk, ih]

/-- Shared helper: the skip flag returned by `prepare` is set iff the
scales key is absent from the incoming request. -/
theorem prepare_skip_iff (b : BalanceLabels) (request : List (Nat × Nat)) :
    (b.prepare request).2 = true ↔ List.lookup b.scales request = none := by
  unfold BalanceLabels.prepare
  by_cases h : request.any (fun p => p.1 == b.scales) = true
  · rw [if_pos h]
    obtain ⟨p, hp, hps⟩ := (any_key_eq_iff _ _).mp h
    constructor
    · intro hf
      exact absurd hf (by simp)
    · intro hnone
      exact absurd hps ((lookup_eq_none_iff _ _).mp hnone p hp)
  · rw [if_neg h]
    constructor
    · intro _
      rw [lookup_eq_none_iff]
      intro p hp
      rw [Bool.not_eq_true] at h
      have := List.any_eq_false.mp h p hp
      simpa using this
    · intro _
      rfl

/-! ### Theorems for claims C6, C7, C10 -/

/-- C10: after every call to `BalanceLabels.prepare`, the scales key is
absent from the outgoing request, and the skip flag is set exactly when
the scales key was absent from the incoming request. -/
theorem c10_prepare_removes_scales_and_sets_skip (b : BalanceLabels)
    (request : List (Nat × Nat)) :
    List.lookup b.scales (b.prepare request).1 = none ∧
    ((b.prepare request).2 = true ↔ List.lookup b.scales request = none) := by
  refine ⟨?_, prepare_skip_iff b request⟩
  unfold BalanceLabels.prepare
  by_cases h : request.any (fun p => p.1 == b.scales) = true
  · rw [if_pos h]
    exact lookup_filter_out _ _
  · rw [if_neg h]
    show List.lookup b.scales request = none
    rw [lookup_eq_none_iff]
    intro p hp
    rw [Bool.not_eq_true] at h
    have := List.any_eq_false.mp h p hp
    simpa using this

/-- C6: when the scales key is not in the request as `prepare` runs, the
following `process` call is a no-op: the batch comes back unchanged (no
scales entry added, nothing modified) and the weight computation is
never reached. -/
theorem c6_process_noop_when_scales_not_requested (b : BalanceLabels)
    (request : List (Nat × Nat)) (batch : List (Nat × List ℚ))
    (hs : List.lookup b.scales request = none) :
    (b.prepare request).2 = true ∧
    b.process (b.prepare request).2 batch = (some batch, false) := by
  have hskip : (b.prepare request).2 = true :=
    (prepare_skip_iff b request).mpr hs
  refine ⟨hskip, ?_⟩
  rw [hskip]
  rfl

/-- Closed witness for `c6_process_noop_when_scales_not_requested`. -/
theorem c6_process_noop_witness :
    List.lookup (0 : Nat) [((3 : Nat), (7 : Nat))] = none ∧
    ((BalanceLabels.mk 1 0 []).prepare [(3, 7)]).2 = true ∧
    (BalanceLabels.mk 1 0 []).process ((BalanceLabels.mk 1 0 []).prepare [(3, 7)]).2
      [(1, [(1 : ℚ)])] = (some [(1, [(1 : ℚ)])], false) :=
  ⟨by decide, c6_process_noop_when_scales_not_requested ⟨1, 0, []⟩ [(3, 7)]
    [(1, [(1 : ℚ)])] (by decide)⟩

/-- C7 fails on the code: `prepare` never adds the labels (or mask) keys
to the outgoing request.  Concretely, for a node with labels key 1 and
scales key 0 and the incoming request `{0 ↦ 42}` (scales present, labels
absent), `prepare` takes the scales-present branch (skip flag cleared)
yet the labels key is absent from the outgoing request. -/
theorem c7_counterexample :
    ((BalanceLabels.mk 1 0 []).prepare [(0, 42)]).2 = false ∧
    List.lookup (1 : Nat) ((BalanceLabels.mk 1 0 []).prepare [(0, 42)]).1 = none := by
  decide

/-- C7 (amended): when the scales key is present as `prepare` runs, the
skip flag is cleared and every key other than the scales key maps to
exactly what it mapped to in the incoming request — entries are never
deleted, but absent labels/mask keys are not added either. -/
theorem c7_prepare_touches_only_scales (b : BalanceLabels)
    (request : List (Nat × Nat))
    (hs : request.any (fun p => p.1 == b.scales) = true) :
    (b.prepare request).2 = false ∧
    ∀ k, k ≠ b.scales →
      List.lookup k (b.prepare request).1 = List.lookup k request := by
  unfold BalanceLabels.prepare
  rw [if_pos hs]
  exact ⟨rfl, fun k hk => lookup_filter_ne k b.scales request hk⟩

/-- Closed witness for `c7_prepare_touches_only_scales`. -/
theorem c7_prepare_touches_only_scales_witness :
    ([((0 : Nat), (42 : Nat)), (1, 5)].any (fun p => p.1 == (0 : Nat)) = true) ∧
    ((BalanceLabels.mk 1 0 [2]).prepare [(0, 42), (1, 5)]).2 = false ∧
    List.lookup (1 : Nat) ((BalanceLabels.mk 1 0 [2]).prepare [(0, 42), (1, 5)]).1 =
      List.lookup (1 : Nat) [((0 : Nat), (42 : Nat)), (1, 5)] :=
  ⟨by decide,
   (c7_prepare_touches_only_scales ⟨1, 0, [2]⟩ [(0, 42), (1, 5)] (by decide)).1,
   (c7_prepare_touches_only_scales ⟨1, 0, [2]⟩ [(0, 42), (1, 5)] (by decide)).2
     1 (by decide)⟩

/-! ### Theorems for claims C8 and C9 -/

theorem binarize_one : binarize 1 = 1 := by
  norm_num [binarize, clipQ]

theorem zipWith_mul_replicate_zero (m : Nat) (l : List ℚ) :
    List.zipWith (· * ·) (List.replicate m 0) l =
      List.replicate (min m l.length) 0 := by
  induction m generalizing l with
  | zero => simp
  | succ m ih =>
    cases l with
    | nil => simp
    | cons x xs =>
      simp only [List.replicate_succ, List.zipWith_cons_cons, ih, List.length_cons,
        Nat.succ_min_succ, zero_mul]

/-- C8: on an all-ones labels array (of positive size) with no masks
configured, the positive fraction hits the 0.95 clamp ceiling (not 1),
giving `w_pos = 1/(2·0.95) = 10/19 ≈ 0.526` and `w_neg = 1/(2·0.05) =
10`, and the written scales array is uniformly `10/19 ≈ 0.526`. -/
theorem c8_all_ones_labels (nlen : Nat) (h : 0 < nlen) :
    fracPos (List.replicate nlen 1) [] = 19/20 ∧
    wPos (List.replicate nlen 1) [] = 10/19 ∧
    wNeg (List.replicate nlen 1) [] = 10 ∧
    scalesData (List.replicate nlen 1) [] = List.replicate nlen (10/19) := by
  have hes : errorScale (List.replicate nlen (1 : ℚ)) [] = List.replicate nlen 1 := by
    simp [errorScale]
  have hbin : (List.replicate nlen (1 : ℚ)).map binarize = List.replicate nlen 1 := by
    rw [List.map_replicate, binarize_one]
  have hsum : (List.replicate nlen (1 : ℚ)).sum = (nlen : ℚ) := by
    rw [List.sum_replicate, nsmul_eq_mul, mul_one]
  have hraw : fracPosRaw (List.replicate nlen 1) [] = 1 := by
    unfold fracPosRaw
    rw [hes, hbin, hsum]
    have hz : List.zipWith (· * ·) (List.replicate nlen (1 : ℚ))
        (List.replicate nlen (1 : ℚ)) = List.replicate nlen 1 := by
      rw [List.zipWith_replicate, mul_one, min_self]
    rw [if_pos (by exact_mod_cast h), hz, hsum]
    exact div_self (by exact_mod_cast h.ne')
  have hfp : fracPos (List.replicate nlen 1) [] = 19/20 := by
    rw [fracPos, hraw]
    norm_num [clipQ]
  have hwp : wPos (List.replicate nlen 1) [] = 10/19 := by
    rw [wPos, hfp]
    norm_num
  have hwn : wNeg (List.replicate nlen 1) [] = 10 := by
    rw [wNeg, hfp]
    norm_num
  refine ⟨hfp, hwp, hwn, ?_⟩
  rw [scalesData, hes, hbin, hwp, hwn, List.map_replicate]
  have hw : (if (1 : ℚ) ≥ 1/2 then (1 : ℚ) else 0) * (10/19)
      + (if (1 : ℚ) < 1/2 then (1 : ℚ) else 0) * 10 = 10/19 := by
    norm_num
  rw [hw, List.zipWith_replicate, one_mul, min_self]

/-- Closed witness for `c8_all_ones_labels`. -/
theorem c8_all_ones_labels_witness :
    0 < 3 ∧
    (fracPos (List.replicate 3 1) [] = 19/20 ∧
     wPos (List.replicate 3 1) [] = 10/19 ∧
     wNeg (List.replicate 3 1) [] = 10 ∧
     scalesData (List.replicate 3 1) [] = List.replicate 3 (10/19)) :=
  ⟨by decide, c8_all_ones_labels 3 (by decide)⟩

/-- C9: when the elementwise product of the masks is identically zero
(the `error_scale` array is all zeros, so the masked-in count is 0), the
division guard takes `frac_pos = 0` with no division performed; the
clamp raises it to 0.05, so `w_neg = 1/(2·0.95) = 10/19 ≈ 0.526`, and
the written scales array is identically zero because the zero mask
multiplies through. -/
theorem c9_zero_mask_all_zero_scales (labels : List ℚ) (masks : List (List ℚ))
    (h : errorScale labels masks = List.replicate labels.length 0) :
    fracPosRaw labels masks = 0 ∧
    fracPos labels masks = 1/20 ∧
    wNeg labels masks = 10/19 ∧
    scalesData labels masks = List.replicate labels.length 0 := by
  have hsum : (errorScale labels masks).sum = 0 := by
    rw [h, List.sum_replicate, smul_zero]
  have hraw : fracPosRaw labels masks = 0 := by
    unfold fracPosRaw
    rw [if_neg (by rw [hsum]; exact lt_irrefl 0)]
  have hfp : fracPos labels masks = 1/20 := by
    rw [fracPos, hraw]
    norm_num [clipQ]
  have hwn : wNeg labels masks = 10/19 := by
    rw [wNeg, hfp]
    norm_num
  refine ⟨hraw, hfp, hwn, ?_⟩
  rw [scalesData, h, zipWith_mul_replicate_zero]
  simp

/-- Closed witness for `c9_zero_mask_all_zero_scales`: labels `[0, 1]`
with the single all-zero mask `[0, 0]`. -/
theorem c9_zero_mask_all_zero_scales_witness :
    errorScale [0, 1] [[0, 0]] = List.replicate (List.length [(0 : ℚ), 1]) 0 ∧
    scalesData [0, 1] [[0, 0]] = List.replicate (List.length [(0 : ℚ), 1]) 0 := by
  have h : errorScale [0, 1] [[0, 0]] = List.replicate (List.length [(0 : ℚ), 1]) 0 := by
    norm_num [errorScale, List.replicate]
  exact ⟨h, (c9_zero_mask_all_zero_scales [0, 1] [[0, 0]] h).2.2.2⟩

/-! ### setItem and mergeVal lemmas -/

theorem lookup_setItem_self {β : Type} (k : Nat) (v : β) (l : List (Nat × β)) :
    List.lookup k (setItem k v l) = some v := by
  induction l with
  | nil => exact lookup_cons_self k v []
  | cons p rest ih =>
    rw [setItem]
    by_cases hp : p.1 = k
    · rw [if_pos hp]
      exact lookup_cons_self k v rest
    · rw [if_neg hp, lookup_cons_ne k p _ (by omega), ih]

theorem lookup_setItem_ne {β : Type} (q k : Nat) (v : β) (l : List (Nat × β))
    (h : q ≠ k) :
    List.lookup q (setItem k v l) = List.lookup q l := by
  induction l with
  | nil =>
    rw [setItem, lookup_cons_ne q (k, v) [] (by simpa using h)]
  | cons p rest ih =>
    rw [setItem]
    by_cases hp : p.1 = k
    · rw [if_pos hp, lookup_cons_ne q (k, v) rest (by simpa using h),
        lookup_cons_ne q p rest (by omega)]
    · rw [if_neg hp]
      by_cases hq : q = p.1
      · obtain ⟨a, v'⟩ := p
        simp only at hq
        subst hq
        rw [lookup_cons_self, lookup_cons_self]
      · rw [lookup_cons_ne q p _ hq, lookup_cons_ne q p rest hq, ih]

theorem lookup_append_single_ne {β : Type} (k : Nat) (l : List (Nat × β))
    (e : Nat × β) (h : k ≠ e.1) :
    List.lookup k (l ++ [e]) = List.lookup k l := by
  induction l with
  | nil =>
    simp only [List.nil_append]
    rw [lookup_cons_ne k e [] h]
  | cons p rest ih =>
    by_cases hp : k = p.1
    · obtain ⟨a, v⟩ := p
      simp only at hp
      subst hp
      rw [List.cons_append, lookup_cons_self, lookup_cons_self]
    · rw [List.cons_append, lookup_cons_ne k p _ hp, lookup_cons_ne k p rest hp, ih]

theorem lookup_append_single_self {β : Type} (k : Nat) (v : β) (l : List (Nat × β))
    (h : List.lookup k l = none) :
    List.lookup k (l ++ [(k, v)]) = some v := by
  induction l with
  | nil => exact lookup_cons_self k v []
  | cons p rest ih =>
    have hk : k ≠ p.1 := by
      intro he
      obtain ⟨a, v'⟩ := p
      simp only at he
      subst he
      rw [lookup_cons_self] at h
      exact Option.noConfusion h
    rw [lookup_cons_ne k p rest hk] at h
    rw [List.cons_append, lookup_cons_ne k p _ hk, ih h]

theorem lookup_mergeVal_ne {β : Type} (f : β → β → β) (l : List (Nat × β))
    (e : Nat × β) (k : Nat) (h : k ≠ e.1) :
    List.lookup k (mergeVal f l e) = List.lookup k l := by
  rw [mergeVal]
  cases List.lookup e.1 l with
  | none => exact lookup_append_single_ne k l e h
  | some ex => exact lookup_setItem_ne k e.1 _ l h

theorem lookup_mergeVal_combine {β : Type} (f : β → β → β) (l : List (Nat × β))
    (k : Nat) (inc ex : β) (h : List.lookup k l = some ex) :
    List.lookup k (mergeVal f l (k, inc)) = some (f ex inc) := by
  rw [mergeVal]
  simp only [h]
  exact lookup_setItem_self k (f ex inc) l

theorem lookup_foldl_mergeVal_not_mem {β : Type} (f : β → β → β)
    (l : List (Nat × β)) (init : List (Nat × β)) (k : Nat)
    (h : ∀ e ∈ l, e.1 ≠ k) :
    List.lookup k (l.foldl (mergeVal f) init) = List.lookup k init := by
  induction l generalizing init with
  | nil => rfl
  | cons e rest ih =>
    rw [List.foldl_cons, ih _ (fun q hq => h q (List.mem_cons_of_mem e hq)),
      lookup_mergeVal_ne f init e k (Ne.symm (h e (List.mem_cons_self e rest)))]

theorem lookup_foldl_mergeVal {β : Type} (f : β → β → β)
    (l : List (Nat × β)) (init : List (Nat × β)) (k : Nat) (ex inc : β)
    (hnd : (l.map Prod.fst).Nodup)
    (hl : List.lookup k l = some inc)
    (hex : List.lookup k init = some ex) :
    List.lookup k (l.foldl (mergeVal f) init) = some (f ex inc) := by
  induction l generalizing init with
  | nil => exact Option.noConfusion hl
  | cons e rest ih =>
    rw [List.map_cons, List.nodup_cons] at hnd
    rw [List.foldl_cons]
    by_cases he : e.1 = k
    · have hrest : ∀ q ∈ rest, q.1 ≠ k := by
        intro q hq hqk
        apply hnd.1
        have hm := List.mem_map_of_mem Prod.fst hq
        rwa [hqk, ← he] at hm
      rw [lookup_foldl_mergeVal_not_mem f rest (mergeVal f init e) k hrest]
      obtain ⟨e1, e2⟩ := e
      simp only at he
      subst he
      rw [lookup_cons_self] at hl
      injection hl with hl2
      subst hl2
      exact lookup_mergeVal_combine f init e1 e2 ex hex
    · have hlr : List.lookup k rest = some inc := by
        rwa [lookup_cons_ne k e rest (by omega)] at hl
      exact ih (mergeVal f init e) hnd.2 hlr
        (by rw [lookup_mergeVal_ne f init e k (by omega)]; exact hex)

/-! ### Theorems for claims C2 and C3 -/

/-- C2: for a key present in both requests whose existing entry is
spatial, `merge` stores the existing spec with its ROI replaced by the
union of the two ROIs; the non-ROI fields (`voxel_size`, `dtype`, the
`nonspatial` flag) are retained from the first request's entry.  Both
families behave this way (a graph entry never passes the `isinstance`
test, so it always takes the union branch). -/
theorem c2_merge_unions_rois_left_biased {n : Nat} (r1 r2 : BatchRequest n) (k : Nat)
    (hndA : (r2.array_specs.map Prod.fst).Nodup)
    (hndG : (r2.graph_specs.map Prod.fst).Nodup) :
    (∀ ex inc : ArraySpec n, List.lookup k r1.array_specs = some ex →
      List.lookup k r2.array_specs = some inc → ex.nonspatial = false →
      List.lookup k (r1.merge r2).array_specs =
        some { ex with roi := unionO ex.roi inc.roi }) ∧
    (∀ ex inc : GraphSpec n, List.lookup k r1.graph_specs = some ex →
      List.lookup k r2.graph_specs = some inc →
      List.lookup k (r1.merge r2).graph_specs =
        some { ex with roi := unionO ex.roi inc.roi }) := by
  constructor
  · intro ex inc h1 h2 hns
    have := lookup_foldl_mergeVal
      (fun ex inc : ArraySpec n =>
        if ex.nonspatial then inc else { ex with roi := unionO ex.roi inc.roi })
      r2.array_specs r1.array_specs k ex inc hndA h2 h1
    rw [BatchRequest.merge]
    simp only [mergeEntryA]
    rw [this]
    simp [hns]
  · intro ex inc h1 h2
    have := lookup_foldl_mergeVal
      (fun ex inc : GraphSpec n => { ex with roi := unionO ex.roi inc.roi })
      r2.graph_specs r1.graph_specs k ex inc hndG h2 h1
    rw [BatchRequest.merge]
    simp only [mergeEntryG]
    rw [this]

/-- Closed witness for `c2_merge_unions_rois_left_biased`: two
one-dimensional requests sharing array key 4, with ROIs `[0, 10)` and
`[6, 14)` whose union is `[0, 14)`, and different `voxel_size`/`dtype`
on the two entries — the merged entry keeps the first request's. -/
theorem c2_merge_unions_rois_left_biased_witness :
    ((reqEightAt4.array_specs.map Prod.fst).Nodup) ∧
    List.lookup 4 (reqTenAt4.merge reqEightAt4).array_specs =
      some { specTen with roi := unionO specTen.roi specEight.roi } :=
  ⟨by decide,
   (c2_merge_unions_rois_left_biased reqTenAt4 reqEightAt4 4
      (by decide) (by decide)).1
     specTen specEight (by decide) (by decide) (by decide)⟩

/-- C3: for a key present in both requests whose existing entry is a
nonspatial array spec, `merge` stores exactly the incoming request's
spec — no ROI union is taken and nothing of the existing entry
survives. -/
theorem c3_merge_nonspatial_overwrites {n : Nat} (r1 r2 : BatchRequest n)
    (k : Nat) (ex inc : ArraySpec n)
    (hnd : (r2.array_specs.map Prod.fst).Nodup)
    (h1 : List.lookup k r1.array_specs = some ex)
    (h2 : List.lookup k r2.array_specs = some inc)
    (hns : ex.nonspatial = true) :
    List.lookup k (r1.merge r2).array_specs = some inc := by
  have := lookup_foldl_mergeVal
    (fun ex inc : ArraySpec n =>
      if ex.nonspatial then inc else { ex with roi := unionO ex.roi inc.roi })
    r2.array_specs r1.array_specs k ex inc hnd h2 h1
  rw [BatchRequest.merge]
  simp only [mergeEntryA]
  rw [this]
  simp [hns]

/-- Closed witness for `c3_merge_nonspatial_overwrites`: the existing
entry under key 4 is nonspatial; the incoming spec (different ROI,
voxel size and dtype) replaces it wholesale. -/
theorem c3_merge_nonspatial_overwrites_witness :
    ((reqEightAt4.array_specs.map Prod.fst).Nodup) ∧
    List.lookup 4 (reqNSAt4.merge reqEightAt4).array_specs = some specEight :=
  ⟨by decide,
   c3_merge_nonspatial_overwrites reqNSAt4 reqEightAt4 4 specNS specEight
     (by decide) (by decide) (by decide) (by decide)⟩

/-! ### ROI centering lemmas -/

theorem union_center {n : Nat} (c : Coordinate n) (a b : Roi n)
    (ha : ∀ i, 0 ≤ a.shape i) (hb : ∀ i, 0 ≤ b.shape i)
    (hca : a.get_center = c) (hcb : b.get_center = c) :
    (a.union b).get_center = c ∧ ∀ i, 0 ≤ (a.union b).shape i := by
  have ha' : ∀ i, a.offset i + a.shape i / 2 = c i := fun i => congrFun hca i
  have hb' : ∀ i, b.offset i + b.shape i / 2 = c i := fun i => congrFun hcb i
  constructor
  · funext i
    have h1 := ha' i
    have h2 := hb' i
    have h3 := ha i
    have h4 := hb i
    show min (a.offset i) (b.offset i) +
      (max (a.offset i + a.shape i) (b.offset i + b.shape i) -
        min (a.offset i) (b.offset i)) / 2 = c i
    omega
  · intro i
    have h3 := ha i
    have h4 := hb i
    show 0 ≤ max (a.offset i + a.shape i) (b.offset i + b.shape i) -
      min (a.offset i) (b.offset i)
    omega

theorem foldl_union_center {n : Nat} (c : Coordinate n) (xs : List (Roi n))
    (x : Roi n)
    (hx : x.get_center = c ∧ ∀ i, 0 ≤ x.shape i)
    (hxs : ∀ ρ ∈ xs, ρ.get_center = c ∧ ∀ i, 0 ≤ ρ.shape i) :
    (xs.foldl Roi.union x).get_center = c := by
  induction xs generalizing x with
  | nil => exact hx.1
  | cons y ys ih =>
    rw [List.foldl_cons]
    have hy := hxs y (List.mem_cons_self y ys)
    have hu := union_center c x y hx.2 hy.2 hx.1 hy.1
    exact ih (x.union y) hu (fun ρ hρ => hxs ρ (List.mem_cons_of_mem y hρ))

theorem centerSpec_center {n : Nat} (c : Coordinate n) (ρ : Roi n) :
    (centerSpec c ρ).get_center = c ∧ (centerSpec c ρ).shape = ρ.shape := by
  constructor
  · funext i
    show ρ.offset i + (c i - (ρ.offset i + ρ.shape i / 2)) + ρ.shape i / 2 = c i
    omega
  · rfl

/-! ### Heap-model lemmas and theorems for claim C4 -/

theorem lookup_mem {β : Type} (k : Nat) (v : β) (l : List (Nat × β))
    (h : List.lookup k l = some v) : (k, v) ∈ l := by
  induction l with
  | nil => exact Option.noConfusion h
  | cons p rest ih =>
    by_cases hp : k = p.1
    · obtain ⟨a, b⟩ := p
      simp only at hp
      subst hp
      rw [lookup_cons_self] at h
      injection h with h
      subst h
      exact List.mem_cons_self _ _
    · rw [lookup_cons_ne k p rest hp] at h
      exact List.mem_cons_of_mem p (ih h)

theorem lookup_eq_none_iff_keys {β : Type} (k : Nat) (l : List (Nat × β)) :
    List.lookup k l = none ↔ k ∉ l.map Prod.fst := by
  rw [lookup_eq_none_iff]
  constructor
  · intro h hk
    obtain ⟨p, hp, hpk⟩ := List.mem_map.mp hk
    exact h p hp hpk
  · intro h p hp hpk
    exact h (hpk ▸ List.mem_map_of_mem Prod.fst hp)

theorem copyCells_sound {β : Type} (dflt : β) (m : List (Nat × Nat)) (cells : List β) :
    (∃ ext, (copyCells dflt m cells).2 = cells ++ ext) ∧
    (∀ p ∈ (copyCells dflt m cells).1, cells.length ≤ p.2) ∧
    ((copyCells dflt m cells).1).map Prod.fst = m.map Prod.fst := by
  induction m generalizing cells with
  | nil =>
    exact ⟨⟨[], by simp [copyCells]⟩, by simp [copyCells], by simp [copyCells]⟩
  | cons p rest ih =>
    obtain ⟨⟨ext, hext⟩, haddr, hkeys⟩ := ih (cells ++ [hread cells dflt p.2])
    refine ⟨⟨hread cells dflt p.2 :: ext, ?_⟩, ?_, ?_⟩
    · simp only [copyCells]
      rw [hext, List.append_assoc]
      rfl
    · intro q hq
      simp only [copyCells, List.mem_cons] at hq
      rcases hq with rfl | hq
      · exact le_refl _
      · have := haddr q hq
        rw [List.length_append] at this
        omega
    · simp only [copyCells, List.map_cons]
      rw [hkeys]

theorem mergeCellStep_absent {β : Type} (dflt : β) (combine : β → β → Option β)
    (st : List (Nat × Nat) × List β) (e : Nat × Nat)
    (h : List.lookup e.1 st.1 = none) :
    mergeCellStep dflt combine st e = (st.1 ++ [e], st.2) := by
  simp [mergeCellStep, h]

theorem mergeCellStep_overwrite {β : Type} (dflt : β) (combine : β → β → Option β)
    (st : List (Nat × Nat) × List β) (e : Nat × Nat) (exAddr : Nat)
    (h : List.lookup e.1 st.1 = some exAddr)
    (hc : combine (hread st.2 dflt exAddr) (hread st.2 dflt e.2) = none) :
    mergeCellStep dflt combine st e = (setItem e.1 e.2 st.1, st.2) := by
  simp [mergeCellStep, h, hc]

theorem mergeCellStep_inplace {β : Type} (dflt : β) (combine : β → β → Option β)
    (st : List (Nat × Nat) × List β) (e : Nat × Nat) (exAddr : Nat) (v : β)
    (h : List.lookup e.1 st.1 = some exAddr)
    (hc : combine (hread st.2 dflt exAddr) (hread st.2 dflt e.2) = some v) :
    mergeCellStep dflt combine st e = (st.1, hwrite st.2 exAddr v) := by
  simp [mergeCellStep, h, hc]

theorem foldl_mergeCellStep_preserves {β : Type} (dflt : β)
    (combine : β → β → Option β) (l : List (Nat × Nat)) (base : Nat)
    (st : List (Nat × Nat) × List β)
    (hnd : (l.map Prod.fst).Nodup)
    (hmap : ∀ p ∈ l, ∀ ad, List.lookup p.1 st.1 = some ad → base ≤ ad) :
    ∀ a, a < base →
      ((l.foldl (mergeCellStep dflt combine) st).2).get? a = st.2.get? a := by
  induction l generalizing st with
  | nil =>
    intro a ha
    rfl
  | cons e rest ih =>
    rw [List.map_cons, List.nodup_cons] at hnd
    intro a ha
    rw [List.foldl_cons]
    have hne : ∀ p ∈ rest, p.1 ≠ e.1 := by
      intro p hp hpe
      exact hnd.1 (hpe ▸ List.mem_map_of_mem Prod.fst hp)
    cases hlk : List.lookup e.1 st.1 with
    | none =>
      rw [mergeCellStep_absent dflt combine st e hlk]
      rw [ih (st.1 ++ [e], st.2) hnd.2 ?hm a ha]
      case hm =>
        intro p hp ad had
        rw [lookup_append_single_ne p.1 st.1 e (hne p hp)] at had
        exact hmap p (List.mem_cons_of_mem e hp) ad had
    | some exAddr =>
      cases hc : combine (hread st.2 dflt exAddr) (hread st.2 dflt e.2) with
      | none =>
        rw [mergeCellStep_overwrite dflt combine st e exAddr hlk hc]
        rw [ih (setItem e.1 e.2 st.1, st.2) hnd.2 ?hm a ha]
        case hm =>
          intro p hp ad had
          rw [lookup_setItem_ne p.1 e.1 e.2 st.1 (hne p hp)] at had
          exact hmap p (List.mem_cons_of_mem e hp) ad had
      | some v =>
        have hbase : base ≤ exAddr := hmap e (List.mem_cons_self e rest) exAddr hlk
        rw [mergeCellStep_inplace dflt combine st e exAddr v hlk hc]
        rw [ih (st.1, hwrite st.2 exAddr v) hnd.2 ?hm a ha]
        case hm =>
          intro p hp ad had
          exact hmap p (List.mem_cons_of_mem e hp) ad had
        exact List.get?_set_ne v st.2 (by omega)

theorem foldl_mergeCellStep_mapping_other {β : Type} (dflt : β)
    (combine : β → β → Option β) (l : List (Nat × Nat))
    (st : List (Nat × Nat) × List β) (k : Nat)
    (h : ∀ e ∈ l, e.1 ≠ k) :
    List.lookup k ((l.foldl (mergeCellStep dflt combine) st).1) =
      List.lookup k st.1 := by
  induction l generalizing st with
  | nil => rfl
  | cons e rest ih =>
    rw [List.foldl_cons]
    have hek : k ≠ e.1 := Ne.symm (h e (List.mem_cons_self e rest))
    have hrest : ∀ q ∈ rest, q.1 ≠ k := fun q hq => h q (List.mem_cons_of_mem e hq)
    cases hlk : List.lookup e.1 st.1 with
    | none =>
      rw [mergeCellStep_absent dflt combine st e hlk, ih _ hrest,
        lookup_append_single_ne k st.1 e hek]
    | some exAddr =>
      cases hc : combine (hread st.2 dflt exAddr) (hread st.2 dflt e.2) with
      | none =>
        rw [mergeCellStep_overwrite dflt combine st e exAddr hlk hc, ih _ hrest,
          lookup_setItem_ne k e.1 e.2 st.1 hek]
      | some v =>
        rw [mergeCellStep_inplace dflt combine st e exAddr v hlk hc, ih _ hrest]

theorem foldl_mergeCellStep_alias {β : Type} (dflt : β)
    (combine : β → β → Option β) (l : List (Nat × Nat))
    (st : List (Nat × Nat) × List β) (k ad : Nat)
    (hnd : (l.map Prod.fst).Nodup)
    (hk0 : List.lookup k st.1 = none)
    (hkl : List.lookup k l = some ad) :
    List.lookup k ((l.foldl (mergeCellStep dflt combine) st).1) = some ad := by
  induction l generalizing st with
  | nil => exact Option.noConfusion hkl
  | cons e rest ih =>
    rw [List.map_cons, List.nodup_cons] at hnd
    rw [List.foldl_cons]
    by_cases he : e.1 = k
    · have hrest : ∀ q ∈ rest, q.1 ≠ k := by
        intro q hq hqk
        apply hnd.1
        have hm := List.mem_map_of_mem Prod.fst hq
        rwa [hqk, ← he] at hm
      rw [foldl_mergeCellStep_mapping_other dflt combine rest _ k hrest]
      obtain ⟨e1, e2⟩ := e
      simp only at he
      subst he
      rw [lookup_cons_self] at hkl
      injection hkl with hkl
      subst hkl
      rw [mergeCellStep_absent dflt combine st (e1, e2) (by simpa using hk0)]
      exact lookup_append_single_self e1 e2 st.1 hk0
    · have hkl2 : List.lookup k rest = some ad := by
        rwa [lookup_cons_ne k e rest (by omega)] at hkl
      have hk02 : List.lookup k (mergeCellStep dflt combine st e).1 = none := by
        cases hlk : List.lookup e.1 st.1 with
        | none =>
          rw [mergeCellStep_absent dflt combine st e hlk]
          rw [lookup_append_single_ne k st.1 e (by omega)]
          exact hk0
        | some exAddr =>
          cases hc : combine (hread st.2 dflt exAddr) (hread st.2 dflt e.2) with
          | none =>
            rw [mergeCellStep_overwrite dflt combine st e exAddr hlk hc]
            rw [lookup_setItem_ne k e.1 e.2 st.1 (by omega)]
            exact hk0
          | some v =>
            rw [mergeCellStep_inplace dflt combine st e exAddr v hlk hc]
            exact hk0
      exact ih (mergeCellStep dflt combine st e) hnd.2 hk02 hkl2

/-- C4 fails on the code: `merged[key] = spec` stores the incoming
request's spec object itself, not a copy.  Concretely, merging the empty
request with a request whose key 5 points at heap cell 0 yields a merged
request whose key 5 points at the *same* cell 0; writing `mutSpec`
through that cell (a mutation of the merged result's spec) changes the
second input request's view of its own entry from `origSpec` to
`mutSpec`. -/
theorem c4_counterexample :
    List.lookup 5 aliasMergedReq.array_specs = some 0 ∧
    List.lookup 5 aliasReq.array_specs = some 0 ∧
    aliasReq.viewA aliasHeap 5 = some origSpec ∧
    aliasReq.viewA aliasMutHeap 5 = some mutSpec ∧
    mutSpec ≠ origSpec := by
  decide

/-- C4 (amended): `merge` mutates neither input — every store cell that
existed before the call (in particular every cell either input request
references) is unchanged, the in-place ROI updates landing only on the
freshly deep-copied cells — but for a key absent in the first request
the merged request stores the second request's spec *address* unchanged,
aliasing rather than copying it. -/
theorem c4_merge_preserves_inputs_but_aliases {n : Nat} (h : Heap n)
    (r1 r2 : BatchRequestH)
    (hndA : (r2.array_specs.map Prod.fst).Nodup)
    (hndG : (r2.graph_specs.map Prod.fst).Nodup) :
    (∀ a, a < h.acells.length →
      ((r1.merge r2 h).2.acells).get? a = h.acells.get? a) ∧
    (∀ a, a < h.gcells.length →
      ((r1.merge r2 h).2.gcells).get? a = h.gcells.get? a) ∧
    (∀ k ad, List.lookup k r1.array_specs = none →
      List.lookup k r2.array_specs = some ad →
      List.lookup k ((r1.merge r2 h).1.array_specs) = some ad) ∧
    (∀ k ad, List.lookup k r1.graph_specs = none →
      List.lookup k r2.graph_specs = some ad →
      List.lookup k ((r1.merge r2 h).1.graph_specs) = some ad) := by
  obtain ⟨⟨extA, hextA⟩, haddrA, hkeysA⟩ :=
    copyCells_sound ({} : ArraySpec n) r1.array_specs h.acells
  obtain ⟨⟨extG, hextG⟩, haddrG, hkeysG⟩ :=
    copyCells_sound ({} : GraphSpec n) r1.graph_specs h.gcells
  have hmapA : ∀ p ∈ r2.array_specs, ∀ ad,
      List.lookup p.1 (copyCells ({} : ArraySpec n) r1.array_specs h.acells).1 =
        some ad → h.acells.length ≤ ad := by
    intro p hp ad had
    exact haddrA (p.1, ad) (lookup_mem p.1 ad _ had)
  have hmapG : ∀ p ∈ r2.graph_specs, ∀ ad,
      List.lookup p.1 (copyCells ({} : GraphSpec n) r1.graph_specs h.gcells).1 =
        some ad → h.gcells.length ≤ ad := by
    intro p hp ad had
    exact haddrG (p.1, ad) (lookup_mem p.1 ad _ had)
  refine ⟨?_, ?_, ?_, ?_⟩
  · intro a ha
    show (List.foldl (mergeCellStep {} combineA) _ r2.array_specs).2.get? a = _
    rw [foldl_mergeCellStep_preserves ({} : ArraySpec n) combineA r2.array_specs
      h.acells.length _ hndA hmapA a ha, hextA, List.get?_append ha]
  · intro a ha
    show (List.foldl (mergeCellStep {} combineG) _ r2.graph_specs).2.get? a = _
    rw [foldl_mergeCellStep_preserves ({} : GraphSpec n) combineG r2.graph_specs
      h.gcells.length _ hndG hmapG a ha, hextG, List.get?_append ha]
  · intro k ad h1 h2
    show List.lookup k (List.foldl (mergeCellStep {} combineA) _ r2.array_specs).1 = _
    refine foldl_mergeCellStep_alias ({} : ArraySpec n) combineA r2.array_specs
      _ k ad hndA ?_ h2
    rw [lookup_eq_none_iff_keys, hkeysA, ← lookup_eq_none_iff_keys]
    exact h1
  · intro k ad h1 h2
    show List.lookup k (List.foldl (mergeCellStep {} combineG) _ r2.graph_specs).1 = _
    refine foldl_mergeCellStep_alias ({} : GraphSpec n) combineG r2.graph_specs
      _ k ad hndG ?_ h2
    rw [lookup_eq_none_iff_keys, hkeysG, ← lookup_eq_none_iff_keys]
    exact h1

/-- Closed witness for `c4_merge_preserves_inputs_but_aliases`. -/
theorem c4_merge_preserves_inputs_but_aliases_witness :
    ((aliasReq.array_specs.map Prod.fst).Nodup) ∧
    (BatchRequestH.merge {} aliasReq aliasHeap).2.acells.get? 0 =
      aliasHeap.acells.get? 0 ∧
    List.lookup 5 ((BatchRequestH.merge {} aliasReq aliasHeap).1.array_specs) =
      some 0 :=
  ⟨by decide,
   (c4_merge_preserves_inputs_but_aliases aliasHeap {} aliasReq
      (by decide) (by decide)).1 0 (by decide),
   (c4_merge_preserves_inputs_but_aliases aliasHeap {} aliasReq
      (by decide) (by decide)).2.2.1 5 0 (by decide) (by decide)⟩

/-! ### Request-level centering lemmas (claims C1 and C5) -/

theorem mem_setItem {β : Type} (k : Nat) (v : β) (l : List (Nat × β))
    (q : Nat × β) (h : q ∈ setItem k v l) : q = (k, v) ∨ q ∈ l := by
  induction l with
  | nil =>
    rw [setItem] at h
    rcases List.mem_singleton.mp h with rfl
    exact Or.inl rfl
  | cons p rest ih =>
    rw [setItem] at h
    by_cases hp : p.1 = k
    · rw [if_pos hp] at h
      rcases List.mem_cons.mp h with rfl | h
      · exact Or.inl rfl
      · exact Or.inr (List.mem_cons_of_mem p h)
    · rw [if_neg hp] at h
      rcases List.mem_cons.mp h with rfl | h
      · exact Or.inr (List.mem_cons_self q rest)
      · rcases ih h with h | h
        · exact Or.inl h
        · exact Or.inr (List.mem_cons_of_mem p h)

theorem setItem_self_mem {β : Type} (k : Nat) (v : β) (l : List (Nat × β)) :
    (k, v) ∈ setItem k v l := by
  induction l with
  | nil =>
    rw [setItem]
    exact List.mem_singleton.mpr rfl
  | cons p rest ih =>
    rw [setItem]
    by_cases hp : p.1 = k
    · rw [if_pos hp]
      exact List.mem_cons_self (k, v) rest
    · rw [if_neg hp]
      exact List.mem_cons_of_mem p ih

theorem mem_spatialRois_of_array {n : Nat} (r : BatchRequest n) (p : Nat × ArraySpec n)
    (hp : p ∈ r.array_specs) (hns : p.2.nonspatial = false) (ρ : Roi n)
    (hρ : p.2.roi = some ρ) : ρ ∈ r.spatialRois := by
  unfold BatchRequest.spatialRois
  rw [List.mem_append]
  left
  refine List.mem_filterMap.mpr ⟨p, hp, ?_⟩
  rw [hns]
  simpa using hρ

theorem mem_spatialRois_of_graph {n : Nat} (r : BatchRequest n) (p : Nat × GraphSpec n)
    (hp : p ∈ r.graph_specs) (ρ : Roi n) (hρ : p.2.roi = some ρ) :
    ρ ∈ r.spatialRois := by
  unfold BatchRequest.spatialRois
  rw [List.mem_append]
  right
  exact List.mem_filterMap.mpr ⟨p, hp, hρ⟩

theorem spatialRois_shape_nonneg {n : Nat} (r : BatchRequest n)
    (hA : WFA r.array_specs) (hG : WFG r.graph_specs) :
    ∀ ρ ∈ r.spatialRois, ∀ i, 0 ≤ ρ.shape i := by
  intro ρ hρ
  unfold BatchRequest.spatialRois at hρ
  rw [List.mem_append] at hρ
  rcases hρ with h | h
  · obtain ⟨p, hp, he⟩ := List.mem_filterMap.mp h
    obtain ⟨hns, ρ', hρ', hsh⟩ := hA p hp
    rw [hns] at he
    simp only [Bool.false_eq_true, if_false] at he
    rw [hρ'] at he
    injection he with he
    exact he ▸ hsh
  · obtain ⟨p, hp, he⟩ := List.mem_filterMap.mp h
    obtain ⟨ρ', hρ', hsh⟩ := hG p hp
    rw [hρ'] at he
    injection he with he
    exact he ▸ hsh

theorem filterMap_spatial_map {n : Nat} (f : Roi n → Roi n)
    (l : List (Nat × ArraySpec n)) :
    ((l.map fun p => (p.1, { p.2 with roi := p.2.roi.map f })).filterMap
      fun p => if p.2.nonspatial then none else p.2.roi) =
    (l.filterMap fun p => if p.2.nonspatial then none else p.2.roi).map f := by
  induction l with
  | nil => rfl
  | cons p rest ih =>
    rw [List.map_cons, List.filterMap_cons, List.filterMap_cons]
    by_cases hns : p.2.nonspatial
    · simp [hns, ih]
    · simp only [Bool.not_eq_true] at hns
      cases hr : p.2.roi with
      | none => simp [hns, hr, ih]
      | some ρ => simp [hns, hr, ih]

theorem filterMap_roi_map {n : Nat} (f : Roi n → Roi n)
    (l : List (Nat × GraphSpec n)) :
    ((l.map fun p => (p.1, { p.2 with roi := p.2.roi.map f })).filterMap
      fun p => p.2.roi) =
    (l.filterMap fun p => p.2.roi).map f := by
  induction l with
  | nil => rfl
  | cons p rest ih =>
    rw [List.map_cons, List.filterMap_cons, List.filterMap_cons]
    cases hr : p.2.roi with
    | none => simp [hr, ih]
    | some ρ => simp [hr, ih]

theorem center_rois_array_specs {n : Nat} (r : BatchRequest n) (t : Roi n)
    (h : r.get_total_roi = some t) :
    (r.center_rois).array_specs = r.array_specs.map fun p =>
      (p.1, { p.2 with roi := p.2.roi.map (centerSpec t.get_center) }) := by
  unfold BatchRequest.center_rois
  rw [h]

theorem center_rois_graph_specs {n : Nat} (r : BatchRequest n) (t : Roi n)
    (h : r.get_total_roi = some t) :
    (r.center_rois).graph_specs = r.graph_specs.map fun p =>
      (p.1, { p.2 with roi := p.2.roi.map (centerSpec t.get_center) }) := by
  unfold BatchRequest.center_rois
  rw [h]

theorem spatialRois_center_rois {n : Nat} (r : BatchRequest n) (t : Roi n)
    (h : r.get_total_roi = some t) :
    (r.center_rois).spatialRois = r.spatialRois.map (centerSpec t.get_center) := by
  unfold BatchRequest.spatialRois
  rw [center_rois_array_specs r t h, center_rois_graph_specs r t h,
    filterMap_spatial_map, filterMap_roi_map, List.map_append]

theorem center_rois_step {n : Nat} (r : BatchRequest n)
    (hA : WFA r.array_specs) (hG : WFG r.graph_specs)
    (hne : r.spatialRois ≠ []) :
    WFA (r.center_rois).array_specs ∧ WFG (r.center_rois).graph_specs ∧
    AllCentered (r.center_rois) := by
  obtain ⟨x, xs, hsp⟩ : ∃ x xs, r.spatialRois = x :: xs := by
    cases hsp : r.spatialRois with
    | nil => exact absurd hsp hne
    | cons x xs => exact ⟨x, xs, rfl⟩
  have htot : r.get_total_roi = some (xs.foldl Roi.union x) := by
    unfold BatchRequest.get_total_roi
    rw [hsp]
  have hxc := spatialRois_shape_nonneg r hA hG
  set t := xs.foldl Roi.union x with ht
  set c := t.get_center with hc
  have harr := center_rois_array_specs r t htot
  have hgra := center_rois_graph_specs r t htot
  have hspat := spatialRois_center_rois r t htot
  have hcent : ∀ ρ' ∈ r.spatialRois.map (centerSpec c),
      ρ'.get_center = c ∧ ∀ i, 0 ≤ ρ'.shape i := by
    intro ρ' hρ'
    obtain ⟨ρ, hρ, rfl⟩ := List.mem_map.mp hρ'
    refine ⟨(centerSpec_center c ρ).1, ?_⟩
    intro i
    have hsh := (centerSpec_center c ρ).2
    rw [hsh]
    exact hxc ρ hρ i
  have htot2 : (r.center_rois).get_total_roi =
      some ((xs.map (centerSpec c)).foldl Roi.union (centerSpec c x)) := by
    unfold BatchRequest.get_total_roi
    rw [hspat, hsp, List.map_cons]
  have hc2 : ((xs.map (centerSpec c)).foldl Roi.union (centerSpec c x)).get_center
      = c := by
    refine foldl_union_center c (xs.map (centerSpec c)) (centerSpec c x) ?_ ?_
    · exact hcent (centerSpec c x)
        (by rw [hsp, List.map_cons]; exact List.mem_cons_self _ _)
    · intro ρ hρ
      exact hcent ρ (by rw [hsp, List.map_cons]; exact List.mem_cons_of_mem _ hρ)
  refine ⟨?_, ?_, ?_, ?_⟩
  · intro q hq
    rw [harr] at hq
    obtain ⟨p, hp, rfl⟩ := List.mem_map.mp hq
    obtain ⟨hns, ρ, hρ, hsh⟩ := hA p hp
    refine ⟨hns, centerSpec c ρ, ?_, ?_⟩
    · show p.2.roi.map (centerSpec c) = some (centerSpec c ρ)
      rw [hρ]
      rfl
    · intro i
      have hshape := (centerSpec_center c ρ).2
      rw [hshape]
      exact hsh i
  · intro q hq
    rw [hgra] at hq
    obtain ⟨p, hp, rfl⟩ := List.mem_map.mp hq
    obtain ⟨ρ, hρ, hsh⟩ := hG p hp
    refine ⟨centerSpec c ρ, ?_, ?_⟩
    · show p.2.roi.map (centerSpec c) = some (centerSpec c ρ)
      rw [hρ]
      rfl
    · intro i
      have hshape := (centerSpec_center c ρ).2
      rw [hshape]
      exact hsh i
  · intro q hq
    rw [harr] at hq
    obtain ⟨p, hp, rfl⟩ := List.mem_map.mp hq
    obtain ⟨hns, ρ, hρ, hsh⟩ := hA p hp
    refine ⟨hns, ?_, ?_⟩
    · show (p.2.roi.map (centerSpec c)).isSome = true
      rw [hρ]
      rfl
    · show (p.2.roi.map (centerSpec c)).map Roi.get_center =
        (r.center_rois).get_total_roi.map Roi.get_center
      rw [hρ, htot2]
      show some ((centerSpec c ρ).get_center) =
        some (((xs.map (centerSpec c)).foldl Roi.union (centerSpec c x)).get_center)
      rw [hc2, (centerSpec_center c ρ).1]
  · intro q hq
    rw [hgra] at hq
    obtain ⟨p, hp, rfl⟩ := List.mem_map.mp hq
    obtain ⟨ρ, hρ, hsh⟩ := hG p hp
    refine ⟨?_, ?_⟩
    · show (p.2.roi.map (centerSpec c)).isSome = true
      rw [hρ]
      rfl
    · show (p.2.roi.map (centerSpec c)).map Roi.get_center =
        (r.center_rois).get_total_roi.map Roi.get_center
      rw [hρ, htot2]
      show some ((centerSpec c ρ).get_center) =
        some (((xs.map (centerSpec c)).foldl Roi.union (centerSpec c x)).get_center)
      rw [hc2, (centerSpec_center c ρ).1]

theorem add_step {n : Nat} (r : BatchRequest n) (op : AddOp n)
    (hA : WFA r.array_specs) (hG : WFG r.graph_specs)
    (hsh : ∀ i, 0 ≤ op.shape i) :
    WFA (r.add op).array_specs ∧ WFG (r.add op).graph_specs ∧
    AllCentered (r.add op) := by
  cases op with
  | array k s v =>
    have hA' : WFA (setItem k
        ({ roi := some ⟨fun _ => 0, s⟩, voxel_size := v } : ArraySpec n)
        r.array_specs) := by
      intro q hq
      rcases mem_setItem k _ r.array_specs q hq with rfl | hq
      · exact ⟨rfl, ⟨fun _ => 0, s⟩, rfl, hsh⟩
      · exact hA q hq
    have hne : BatchRequest.spatialRois
        { r with
            array_specs := setItem k
              ({ roi := some ⟨fun _ => 0, s⟩, voxel_size := v } : ArraySpec n)
              r.array_specs } ≠ [] := by
      have hm := mem_spatialRois_of_array
        { r with
            array_specs := setItem k
              ({ roi := some ⟨fun _ => 0, s⟩, voxel_size := v } : ArraySpec n)
              r.array_specs }
        (k, { roi := some ⟨fun _ => 0, s⟩, voxel_size := v })
        (setItem_self_mem k _ r.array_specs) rfl ⟨fun _ => 0, s⟩ rfl
      intro h0
      rw [h0] at hm
      exact List.not_mem_nil _ hm
    exact center_rois_step _ hA' hG hne
  | graph k s =>
    have hG' : WFG (setItem k ({ roi := some ⟨fun _ => 0, s⟩ } : GraphSpec n)
        r.graph_specs) := by
      intro q hq
      rcases mem_setItem k _ r.graph_specs q hq with rfl | hq
      · exact ⟨⟨fun _ => 0, s⟩, rfl, hsh⟩
      · exact hG q hq
    have hne : BatchRequest.spatialRois
        { r with
            graph_specs := setItem k
              ({ roi := some ⟨fun _ => 0, s⟩ } : GraphSpec n)
              r.graph_specs } ≠ [] := by
      have hm := mem_spatialRois_of_graph
        { r with
            graph_specs := setItem k
              ({ roi := some ⟨fun _ => 0, s⟩ } : GraphSpec n)
              r.graph_specs }
        (k, { roi := some ⟨fun _ => 0, s⟩ })
        (setItem_self_mem k _ r.graph_specs) ⟨fun _ => 0, s⟩ rfl
      intro h0
      rw [h0] at hm
      exact List.not_mem_nil _ hm
    exact center_rois_step _ hA hG' hne

theorem foldl_add_wf {n : Nat} (ops : List (AddOp n)) (r : BatchRequest n)
    (hA : WFA r.array_specs) (hG : WFG r.graph_specs)
    (h : ∀ op ∈ ops, ∀ i, 0 ≤ op.shape i) :
    WFA (ops.foldl BatchRequest.add r).array_specs ∧
    WFG (ops.foldl BatchRequest.add r).graph_specs := by
  induction ops generalizing r with
  | nil => exact ⟨hA, hG⟩
  | cons op rest ih =>
    rw [List.foldl_cons]
    have step := add_step r op hA hG (h op (List.mem_cons_self op rest))
    exact ih (r.add op) step.1 step.2.1
      (fun q hq i => h q (List.mem_cons_of_mem op hq) i)

/-! ### Theorems for claims C1 and C5 -/

/-- C1: for every request built from the empty request by repeated `add`
calls with componentwise nonnegative shapes, after each call every entry
is spatial, has a defined ROI, and that ROI's center (integer floor
arithmetic) equals the center of the request's total ROI. -/
theorem c1_add_keeps_every_roi_centered {n : Nat} (ops : List (AddOp n))
    (h : ∀ op ∈ ops, ∀ i, 0 ≤ op.shape i) :
    AllCentered (applyAdds ops) := by
  rcases List.eq_nil_or_concat' ops with rfl | ⟨init, last, rfl⟩
  · exact ⟨fun p hp => absurd hp (List.not_mem_nil p),
      fun p hp => absurd hp (List.not_mem_nil p)⟩
  · have hwf := foldl_add_wf init ({} : BatchRequest n)
      (fun p hp => absurd hp (List.not_mem_nil p))
      (fun p hp => absurd hp (List.not_mem_nil p))
      (fun q hq i => h q (List.mem_append_left [last] hq) i)
    unfold applyAdds
    rw [List.foldl_append, List.foldl_cons, List.foldl_nil]
    exact (add_step _ last hwf.1 hwf.2
      (h last (List.mem_append_right init (List.mem_singleton.mpr rfl)))).2.2

/-- Closed witness for `c1_add_keeps_every_roi_centered`: the spec's own
end-to-end example, a 10×10 patch and a 20×20 patch added in turn. -/
theorem c1_add_keeps_every_roi_centered_witness :
    (∀ op ∈ ([AddOp.array 0 (fun _ => 10) none,
               AddOp.array 1 (fun _ => 20) none] : List (AddOp 2)),
      ∀ i, 0 ≤ op.shape i) ∧
    AllCentered (applyAdds ([AddOp.array 0 (fun _ => 10) none,
               AddOp.array 1 (fun _ => 20) none] : List (AddOp 2))) :=
  ⟨by decide, c1_add_keeps_every_roi_centered _ (by decide)⟩

/-- C5 fails on the code: `__center_rois` shifts every spec's ROI with no
nonspatial check.  Concretely, in a request holding a spatial `[0, 10)`
entry and a nonspatial entry whose (ignored-by-total) ROI is `[100, 100)`
(center 100), an `add` of shape 4 recenters the common center to 5 and
the nonspatial entry's ROI is shifted to `[5, 5)` — changed, not left
alone. -/
theorem c5_counterexample :
    specNSRoi.nonspatial = true ∧
    List.lookup 1 reqWithNS.array_specs = some specNSRoi ∧
    List.lookup 1 ((reqWithNS.add (AddOp.array 2 (fun _ => 4) none)).array_specs) =
      some { specNSRoi with roi := some ⟨fun _ => 5, fun _ => 0⟩ } ∧
    ({ specNSRoi with roi := some ⟨fun _ => 5, fun _ => 0⟩ } : ArraySpec 1)
      ≠ specNSRoi := by
  decide

/-- C5 (amended): a nonspatial spec's ROI indeed does not contribute to
the total ROI (replacing a nonspatial entry by any other nonspatial
entry leaves `get_total_roi` unchanged), but the centering pass run by
`add` shifts *every* entry's ROI — nonspatial entries included — to the
common center; a nonspatial ROI is left unchanged only when its center
already coincides with the total ROI's center. -/
theorem c5_centering_shifts_nonspatial_rois {n : Nat} (r : BatchRequest n)
    (t : Roi n) (h : r.get_total_roi = some t) :
    (∀ p ∈ r.array_specs,
      (p.1, { p.2 with roi := p.2.roi.map (centerSpec t.get_center) }) ∈
        (r.center_rois).array_specs) ∧
    (∀ (g : List (Nat × GraphSpec n)) (l1 l2 : List (Nat × ArraySpec n))
      (k : Nat) (s1 s2 : ArraySpec n), s1.nonspatial = true →
      s2.nonspatial = true →
      BatchRequest.get_total_roi ⟨l1 ++ (k, s1) :: l2, g⟩ =
        BatchRequest.get_total_roi ⟨l1 ++ (k, s2) :: l2, g⟩) := by
  constructor
  · intro p hp
    rw [center_rois_array_specs r t h]
    exact List.mem_map_of_mem _ hp
  · intro g l1 l2 k s1 s2 h1 h2
    unfold BatchRequest.get_total_roi BatchRequest.spatialRois
    simp only [List.filterMap_append, List.filterMap_cons, h1, h2, if_true]

/-- Closed witness for `c5_centering_shifts_nonspatial_rois`: applied to
the request of `c5_counterexample` before the `add` (total ROI `[0, 10)`,
center 5): the centering pass maps the nonspatial entry's ROI through
`centerSpec`. -/
theorem c5_centering_shifts_nonspatial_rois_witness :
    reqWithNS.get_total_roi = some ⟨fun _ => 0, fun _ => 10⟩ ∧
    ((1 : Nat), { specNSRoi with
        roi := specNSRoi.roi.map
          (centerSpec (Roi.get_center ⟨fun _ => 0, fun _ => 10⟩)) }) ∈
      (reqWithNS.center_rois).array_specs :=
  ⟨by decide,
   (c5_centering_shifts_nonspatial_rois reqWithNS ⟨fun _ => 0, fun _ => 10⟩
      (by decide)).1 (1, specNSRoi) (by decide)⟩

end Gunpowder
